import Mathlib

/-!
# Verification of the `fresh_news` AP-news crawler

Shallow embedding of the crawl-and-extract engine in `collectors.py`
(class `News` and class `APNewsCollector`), together with proofs of the
spec's testable properties.

Conventions:
* Python strings are Lean `String`s (compared, as in Python, by code-point
  lexicographic order, modelled by `strLexLt`).
* The external `Calendar.time_difference_in_months` collaborator is an
  opaque integer input `diff` to the time-window filter.
* The Selenium DOM is modelled by the outcomes it can produce: each
  per-field lookup either finds a value, raises `NoSuchElementException`
  (not found) or raises `StaleElementReferenceException` (stale).
-/

namespace FreshNews

/-! ## Field extraction retry policy (`News.__get_title` etc.)

Each extractor runs `attempts = 2; while attempts: try ... except ...`.
A lookup attempt against the DOM has three possible outcomes. -/

inductive FetchResult where
  | found (value : String)
  | notFound
  | stale
  deriving DecidableEq, Repr

/-- `News.__get_title`: both `NoSuchElementException` and
`StaleElementReferenceException` decrement `attempts` and retry; on each
failure the field is set to `""`, overwritten on a later success.
`o1`, `o2` are the outcomes of the first and (if reached) second attempt. -/
def getTitle (o1 o2 : FetchResult) : String :=
  match o1 with
  | .found v => v
  | .notFound | .stale =>
    match o2 with
    | .found v => v
    | .notFound | .stale => ""

/-- `News.__get_date`: identical retry structure to `__get_title`;
the extracted value is the formatted date string. -/
def getDate (o1 o2 : FetchResult) : String :=
  getTitle o1 o2

/-- `News.__get_description`: identical retry structure to `__get_title`. -/
def getDescription (o1 o2 : FetchResult) : String :=
  getTitle o1 o2

/-- `News.__get_picture`: `NoSuchElementException` is caught by its own
handler which `break`s immediately (no retry), while
`StaleElementReferenceException` decrements `attempts` and retries.
The found value is the hash-derived filename. -/
def getPicture (o1 o2 : FetchResult) : String :=
  match o1 with
  | .found v => v
  | .notFound => ""
  | .stale =>
    match o2 with
    | .found v => v
    | .notFound => ""
    | .stale => ""

/-! ## Money pattern (`News.__get_money`)

The Python pattern is the alternation of
```
\$(\d|[1-9]\d*)\.\d($|\D)
\$(\d|[1-9]\d{0,2}(,\d{3})*)\.\d\d($|\D)
(^|\D)(\d|[1-9]\d*) dollars
(^|\D)(\d|[1-9]\d*) USD
```
searched with `re.search` (a match may start at any position).  We encode
the existence of a match directly.  Key facts used: in every alternative
the digit group is immediately followed by a non-digit (`\.`, a space, or
the end of a branch), so a successful match must consume the entire
maximal digit run starting at the group's position; likewise the
comma-grouped number of the second alternative must consume the entire
maximal run of digits-and-commas. -/

def isDigitChar (c : Char) : Bool :=
  '0' ≤ c && c ≤ '9'

/-- The language `\d|[1-9]\d*`: one digit, or several not starting with 0. -/
def plainNumber (ds : List Char) : Bool :=
  ds.all isDigitChar &&
    match ds with
    | [] => false
    | [_] => true
    | d :: _ :: _ => '1' ≤ d && d ≤ '9'

/-- Zero or more `,\d{3}` groups. -/
def commaGroups : List Char → Bool
  | [] => true
  | ',' :: a :: b :: c :: rest =>
    isDigitChar a && isDigitChar b && isDigitChar c && commaGroups rest
  | _ => false

/-- The language `\d|[1-9]\d{0,2}(,\d{3})*`. -/
def groupedNumber (ds : List Char) : Bool :=
  match ds with
  | [] => false
  | [d] => isDigitChar d
  | d :: rest =>
    ('1' ≤ d && d ≤ '9') &&
      (rest.takeWhile isDigitChar).length ≤ 2 &&
      (rest.takeWhile isDigitChar).all isDigitChar &&
      commaGroups (rest.dropWhile isDigitChar)

/-- `$|\D`: end of input or a non-digit character. -/
def endOrNonDigit : List Char → Bool
  | [] => true
  | c :: _ => !isDigitChar c

/-- A match of `\$(\d|[1-9]\d*)\.\d($|\D)` starting at this position. -/
def moneyAlt1 : List Char → Bool
  | '$' :: rest =>
    plainNumber (rest.takeWhile isDigitChar) &&
      match rest.dropWhile isDigitChar with
      | '.' :: d :: after => isDigitChar d && endOrNonDigit after
      | _ => false
  | _ => false

def isDigitOrComma (c : Char) : Bool :=
  isDigitChar c || c == ','

/-- A match of `\$(\d|[1-9]\d{0,2}(,\d{3})*)\.\d\d($|\D)` starting here. -/
def moneyAlt2 : List Char → Bool
  | '$' :: rest =>
    groupedNumber (rest.takeWhile isDigitOrComma) &&
      match rest.dropWhile isDigitOrComma with
      | '.' :: d1 :: d2 :: after =>
        isDigitChar d1 && isDigitChar d2 && endOrNonDigit after
      | _ => false
  | _ => false

/-- A match of `(\d|[1-9]\d*)` followed by the literal `suffix`,
starting at this position (after `^` or a consumed `\D`). -/
def numberThen (suffix : List Char) (l : List Char) : Bool :=
  plainNumber (l.takeWhile isDigitChar) &&
    suffix.isPrefixOf (l.dropWhile isDigitChar)

/-- A match of `(^|\D)(\d|[1-9]\d*)<suffix>` starting at this position;
`atStart` records whether this position is the start of the string
(where `^` can match without consuming). -/
def moneyUnit (suffix : List Char) (atStart : Bool) (l : List Char) : Bool :=
  (atStart && numberThen suffix l) ||
    match l with
    | c :: rest => !isDigitChar c && numberThen suffix rest
    | [] => false

/-- `re.search` over all start positions. -/
def moneySearchAux : List Char → Bool → Bool
  | l, atStart =>
    moneyAlt1 l || moneyAlt2 l ||
      moneyUnit (" dollars".toList) atStart l ||
      moneyUnit (" USD".toList) atStart l ||
      match l with
      | [] => false
      | _ :: rest => moneySearchAux rest false

/-- `re.search(pattern, s) is not None` for the money pattern. -/
def moneySearch (s : String) : Bool :=
  moneySearchAux s.toList true

/-- `News.__get_money`: true iff the pattern matches the title or the
description. -/
def getMoney (title description : String) : Bool :=
  moneySearch title || moneySearch description

/-! ## Python string primitives

`str.split(sep)` (nonempty separator, leftmost non-overlapping
occurrences) and `str.lower`, executable over character lists. -/

def pySplitAux (s0 : Char) (srest : List Char) : Nat → List Char → List (List Char)
  | _, [] => [[]]
  | 0, l => [l]
  | fuel + 1, c :: rest =>
    if s0 = c && srest.isPrefixOf rest then
      [] :: pySplitAux s0 srest fuel (rest.drop srest.length)
    else
      match pySplitAux s0 srest fuel rest with
      | [] => [[c]]
      | grp :: grps => (c :: grp) :: grps

/-- Split at every leftmost occurrence of `s0 :: srest`.  The fuel
argument only bounds the recursion depth; `l.length` always suffices,
since each step consumes at least one character. -/
def pySplit (s0 : Char) (srest : List Char) (l : List Char) : List (List Char) :=
  pySplitAux s0 srest l.length l

/-- `s.split(sep)` for a nonempty separator string. -/
def pySplitStr (sep s : String) : List String :=
  match sep.toList with
  | [] => [s]
  | s0 :: srest => (pySplit s0 srest s.toList).map String.mk

/-- `s.lower()` (ASCII case mapping, as `Char.toLower`). -/
def strLower (s : String) : String :=
  String.mk (s.toList.map Char.toLower)

/-- Parse a digit string as a natural number (used only to state the
intended numeric pagination comparison). -/
def charsToNat? (l : List Char) : Option Nat :=
  if l ≠ [] && l.all isDigitChar then
    some (l.foldl (fun n c => 10 * n + (c.toNat - '0'.toNat)) 0)
  else none

def strToNat? (s : String) : Option Nat :=
  charsToNat? s.toList

/-! ## Time-window filter (`APNewsCollector.__init__` / `__get_news`) -/

/-- `__init__`: `self.__months = months if months == 0 else months - 1`. -/
def effectiveMonths (months : Int) : Int :=
  if months = 0 then months else months - 1

/-- The acceptance test of `__get_news`: a dated record is kept unless
`months_diff > self.__months`. `diff` is the value returned by the
external `Calendar.time_difference_in_months(news.date, now)`. -/
def inWindow (months diff : Int) : Bool :=
  !(diff > effectiveMonths months)

/-! ## Category negotiation (`APNewsCollector.__filter_news`) -/

/-- The pending set `{category.lower() for category in categories.split(",")}`
(as a deduplicated list).  Note Python's `"".split(",") == [""]`. -/
def pendingCategories (categories : String) : List String :=
  ((pySplitStr "," categories).map strLower).dedup

/-- Whether the `while found and len(categories)` loop body runs at least
once: `found` starts `True`, so it runs iff the pending set is nonempty. -/
def filterLoopRuns (pending : List String) : Bool :=
  !pending.isEmpty

/-- One scan of the checkbox panel (the inner `for` loop): click the first
label whose lower-cased text is pending, remove it, and stop the scan. -/
def scanLabels (labels pending : List String) : Option (String × List String) :=
  match labels with
  | [] => none
  | l :: rest =>
    if strLower l ∈ pending then some (l, pending.erase (strLower l))
    else scanLabels rest pending

/-! ## Pagination decision (`APNewsCollector.__get_news`, tail) -/

/-- Python string `<`: code-point lexicographic comparison. -/
def strLexLt : List Char → List Char → Bool
  | [], [] => false
  | [], _ :: _ => true
  | _ :: _, [] => false
  | a :: as, b :: bs => if a < b then true else if b < a then false else strLexLt as bs

/-- `current < total` as the source performs it (on the two substrings of
the `"current of total"` indicator). -/
def pageAdvances (current total : String) : Bool :=
  strLexLt current.toList total.toList

/-- Reading the page-count indicator: `current, total = text.split(" of ")`
(a two-element unpack; anything else raises) and then the string
comparison. `some b` means the unpack succeeded and `b` is the decision. -/
def paginationDecision (text : String) : Option Bool :=
  match pySplitStr " of " text with
  | [current, total] => some (pageAdvances current total)
  | _ => none

/-! ## The crawl loop (`APNewsCollector.__get_news`)

One result node, as the loop observes it: the deadline flag read by
`datetime.now().timestamp() >= self.__timeout` at the node's check, and
the outcome of constructing `News` — either no usable date, or a date
whose month difference from now is `diff`. -/

inductive Item where
  | undated
  | dated (diff : Int)
  deriving DecidableEq, Repr

/-- A rendered results page: its snapshot of result nodes (each with the
deadline flag observed at its check) and the two halves of its
`"current of total"` indicator. -/
structure Page where
  items : List (Bool × Item)
  current : String
  total : String
  deriving DecidableEq, Repr

structure CrawlConfig where
  /-- `FAULTS_TOLERANCE` (5 in the source). -/
  tolerance : Int
  /-- `self.__months` as computed by `__init__` (`effectiveMonths`). -/
  monthsBound : Int
  deriving DecidableEq, Repr

/-- Observable events of the crawl loop, each annotated with the value of
`remaining_faults` immediately after it. -/
inductive Event where
  /-- a node was discarded and `remaining_faults` decremented. -/
  | fault (budgetAfter : Int)
  /-- `news.save_elements()` ran and the budget was reset. -/
  | emit (diff : Int) (budgetAfter : Int)
  /-- the `div.Pagination-pageCounts` element was read. -/
  | readCounter (budgetAt : Int)
  /-- `div.Pagination-nextPage` was clicked. -/
  | clickNext (budgetAt : Int)
  deriving DecidableEq, Repr

def Event.budget : Event → Int
  | .fault b => b
  | .emit _ b => b
  | .readCounter b => b
  | .clickNext b => b

/-- The inner `for element in ...` loop of `__get_news` over one page's
node snapshot, from budget `b`.  Returns the events, the final budget,
and whether the loop executed `return` (deadline hit or
`not remaining_faults`, i.e. the budget is exactly 0 at a node check). -/
def scanPage (cfg : CrawlConfig) (b : Int) :
    List (Bool × Item) → List Event × Int × Bool
  | [] => ([], b, false)
  | (deadline, item) :: rest =>
    if deadline || b = 0 then ([], b, true)
    else
      match item with
      | .undated =>
        let r := scanPage cfg (b - 1) rest
        (.fault (b - 1) :: r.1, r.2)
      | .dated diff =>
        if diff > cfg.monthsBound then
          let r := scanPage cfg (b - 1) rest
          (.fault (b - 1) :: r.1, r.2)
        else
          let r := scanPage cfg cfg.tolerance rest
          (.emit diff cfg.tolerance :: r.1, r.2)

/-- The outer `while remaining_faults > 0` loop of `__get_news`: scan the
current page; if the scan returned, stop; otherwise read the page
counter and either click to the next page and continue, or stop.
`pages` is the sequence of pages the site presents. -/
def getNews (cfg : CrawlConfig) : Int → List Page → List Event
  | _, [] => []
  | b, p :: rest =>
    if b > 0 then
      let r := scanPage cfg b p.items
      if r.2.2 then r.1
      else
        r.1 ++ .readCounter r.2.1 ::
          (if pageAdvances p.current p.total then
            .clickNext r.2.1 :: getNews cfg r.2.1 rest
          else [])
    else []

/-! ## Helper lemmas about the crawl loop -/

theorem scanPage_zero_events (cfg : CrawlConfig) (items : List (Bool × Item)) :
    (scanPage cfg 0 items).1 = [] := by
  cases items with
  | nil => rfl
  | cons p rest =>
    obtain ⟨deadline, item⟩ := p
    simp [scanPage]

theorem getNews_zero (cfg : CrawlConfig) (pages : List Page) :
    getNews cfg 0 pages = [] := by
  cases pages with
  | nil => rfl
  | cons p rest => simp [getNews]

theorem scanPage_events_nil_budget (cfg : CrawlConfig) (items : List (Bool × Item))
    (b : Int) (h : (scanPage cfg b items).1 = []) : (scanPage cfg b items).2.1 = b := by
  cases items with
  | nil => rfl
  | cons p rest =>
    obtain ⟨deadline, item⟩ := p
    by_cases hstop : (deadline || decide (b = 0)) = true
    · simp only [scanPage, if_pos hstop]
    · cases item with
      | undated =>
        simp only [scanPage, if_neg hstop] at h
        exact absurd h (List.cons_ne_nil _ _)
      | dated diff =>
        by_cases hd : diff > cfg.monthsBound
        · simp only [scanPage, if_neg hstop, if_pos hd] at h
          exact absurd h (List.cons_ne_nil _ _)
        · simp only [scanPage, if_neg hstop, if_neg hd] at h
          exact absurd h (List.cons_ne_nil _ _)

theorem scanPage_nonneg (cfg : CrawlConfig) (htol : 0 ≤ cfg.tolerance) :
    ∀ (items : List (Bool × Item)) (b : Int), 0 ≤ b →
      (∀ e ∈ (scanPage cfg b items).1, 0 ≤ e.budget) ∧ 0 ≤ (scanPage cfg b items).2.1 := by
  intro items
  induction items with
  | nil =>
    intro b hb
    constructor
    · intro e he
      simp only [scanPage, List.not_mem_nil] at he
    · simpa only [scanPage] using hb
  | cons p rest ih =>
    intro b hb
    obtain ⟨deadline, item⟩ := p
    by_cases hstop : (deadline || decide (b = 0)) = true
    · constructor
      · intro e he
        simp only [scanPage, if_pos hstop, List.not_mem_nil] at he
      · simpa only [scanPage, if_pos hstop] using hb
    · have hb0 : ¬ b = 0 := by
        intro h
        exact hstop (by simp [h])
      have hb1 : (0:Int) ≤ b - 1 := by omega
      cases item with
      | undated =>
        obtain ⟨ih1, ih2⟩ := ih (b - 1) hb1
        constructor
        · intro e he
          simp only [scanPage, if_neg hstop, List.mem_cons] at he
          rcases he with rfl | he'
          · simpa [Event.budget] using hb1
          · exact ih1 e he'
        · simpa only [scanPage, if_neg hstop] using ih2
      | dated diff =>
        by_cases hd : diff > cfg.monthsBound
        · obtain ⟨ih1, ih2⟩ := ih (b - 1) hb1
          constructor
          · intro e he
            simp only [scanPage, if_neg hstop, if_pos hd, List.mem_cons] at he
            rcases he with rfl | he'
            · simpa [Event.budget] using hb1
            · exact ih1 e he'
          · simpa only [scanPage, if_neg hstop, if_pos hd] using ih2
        · obtain ⟨ih1, ih2⟩ := ih cfg.tolerance htol
          constructor
          · intro e he
            simp only [scanPage, if_neg hstop, if_neg hd, List.mem_cons] at he
            rcases he with rfl | he'
            · simpa [Event.budget] using htol
            · exact ih1 e he'
          · simpa only [scanPage, if_neg hstop, if_neg hd] using ih2

theorem scanPage_zero_last (cfg : CrawlConfig) :
    ∀ (items : List (Bool × Item)) (b : Int) (l₁ : List Event) (e : Event) (l₂ : List Event),
      (scanPage cfg b items).1 = l₁ ++ e :: l₂ → e.budget = 0 → l₂ = [] := by
  intro items
  induction items with
  | nil =>
    intro b l₁ e l₂ h _
    simp only [scanPage] at h
    exact absurd h (List.append_ne_nil_of_right_ne_nil l₁ (List.cons_ne_nil e l₂)).symm
  | cons p rest ih =>
    intro b l₁ e l₂ h hbe
    obtain ⟨deadline, item⟩ := p
    by_cases hstop : (deadline || decide (b = 0)) = true
    · simp only [scanPage, if_pos hstop] at h
      exact absurd h (List.append_ne_nil_of_right_ne_nil l₁ (List.cons_ne_nil e l₂)).symm
    · cases item with
      | undated =>
        simp only [scanPage, if_neg hstop] at h
        cases l₁ with
        | nil =>
          simp only [List.nil_append, List.cons.injEq] at h
          obtain ⟨rfl, rfl⟩ := h
          have : b - 1 = 0 := hbe
          rw [this]
          exact scanPage_zero_events cfg rest
        | cons x l₁' =>
          simp only [List.cons_append, List.cons.injEq] at h
          exact ih (b - 1) l₁' e l₂ h.2 hbe
      | dated diff =>
        by_cases hd : diff > cfg.monthsBound
        · simp only [scanPage, if_neg hstop, if_pos hd] at h
          cases l₁ with
          | nil =>
            simp only [List.nil_append, List.cons.injEq] at h
            obtain ⟨rfl, rfl⟩ := h
            have : b - 1 = 0 := hbe
            rw [this]
            exact scanPage_zero_events cfg rest
          | cons x l₁' =>
            simp only [List.cons_append, List.cons.injEq] at h
            exact ih (b - 1) l₁' e l₂ h.2 hbe
        · simp only [scanPage, if_neg hstop, if_neg hd] at h
          cases l₁ with
          | nil =>
            simp only [List.nil_append, List.cons.injEq] at h
            obtain ⟨rfl, rfl⟩ := h
            have : cfg.tolerance = 0 := hbe
            rw [this]
            exact scanPage_zero_events cfg rest
          | cons x l₁' =>
            simp only [List.cons_append, List.cons.injEq] at h
            exact ih cfg.tolerance l₁' e l₂ h.2 hbe

theorem scanPage_final_budget (cfg : CrawlConfig) :
    ∀ (items : List (Bool × Item)) (b : Int) (l : List Event) (e : Event),
      (scanPage cfg b items).1 = l ++ [e] → (scanPage cfg b items).2.1 = e.budget := by
  intro items
  induction items with
  | nil =>
    intro b l e h
    simp only [scanPage] at h
    exact absurd h (List.append_ne_nil_of_right_ne_nil l (List.cons_ne_nil e [])).symm
  | cons p rest ih =>
    intro b l e h
    obtain ⟨deadline, item⟩ := p
    by_cases hstop : (deadline || decide (b = 0)) = true
    · simp only [scanPage, if_pos hstop] at h
      exact absurd h (List.append_ne_nil_of_right_ne_nil l (List.cons_ne_nil e [])).symm
    · cases item with
      | undated =>
        simp only [scanPage, if_neg hstop] at h ⊢
        cases l with
        | nil =>
          simp only [List.nil_append, List.cons.injEq] at h
          obtain ⟨rfl, h2⟩ := h
          exact scanPage_events_nil_budget cfg rest (b - 1) h2
        | cons x l' =>
          simp only [List.cons_append, List.cons.injEq] at h
          exact ih (b - 1) l' e h.2
      | dated diff =>
        by_cases hd : diff > cfg.monthsBound
        · simp only [scanPage, if_neg hstop, if_pos hd] at h ⊢
          cases l with
          | nil =>
            simp only [List.nil_append, List.cons.injEq] at h
            obtain ⟨rfl, h2⟩ := h
            exact scanPage_events_nil_budget cfg rest (b - 1) h2
          | cons x l' =>
            simp only [List.cons_append, List.cons.injEq] at h
            exact ih (b - 1) l' e h.2
        · simp only [scanPage, if_neg hstop, if_neg hd] at h ⊢
          cases l with
          | nil =>
            simp only [List.nil_append, List.cons.injEq] at h
            obtain ⟨rfl, h2⟩ := h
            exact scanPage_events_nil_budget cfg rest cfg.tolerance h2
          | cons x l' =>
            simp only [List.cons_append, List.cons.injEq] at h
            exact ih cfg.tolerance l' e h.2

theorem scanPage_events_shape (cfg : CrawlConfig) :
    ∀ (items : List (Bool × Item)) (b : Int), ∀ e ∈ (scanPage cfg b items).1,
      (∃ b', e = .fault b') ∨ (∃ d b', e = .emit d b') := by
  intro items
  induction items with
  | nil =>
    intro b e he
    simp only [scanPage, List.not_mem_nil] at he
  | cons p rest ih =>
    intro b e he
    obtain ⟨deadline, item⟩ := p
    by_cases hstop : (deadline || decide (b = 0)) = true
    · simp only [scanPage, if_pos hstop, List.not_mem_nil] at he
    · cases item with
      | undated =>
        simp only [scanPage, if_neg hstop, List.mem_cons] at he
        rcases he with rfl | he'
        · exact Or.inl ⟨b - 1, rfl⟩
        · exact ih (b - 1) e he'
      | dated diff =>
        by_cases hd : diff > cfg.monthsBound
        · simp only [scanPage, if_neg hstop, if_pos hd, List.mem_cons] at he
          rcases he with rfl | he'
          · exact Or.inl ⟨b - 1, rfl⟩
          · exact ih (b - 1) e he'
        · simp only [scanPage, if_neg hstop, if_neg hd, List.mem_cons] at he
          rcases he with rfl | he'
          · exact Or.inr ⟨diff, cfg.tolerance, rfl⟩
          · exact ih cfg.tolerance e he'

theorem scanPage_emit_budget (cfg : CrawlConfig) :
    ∀ (items : List (Bool × Item)) (b : Int) (d bud : Int),
      Event.emit d bud ∈ (scanPage cfg b items).1 → bud = cfg.tolerance := by
  intro items
  induction items with
  | nil =>
    intro b d bud he
    simp only [scanPage, List.not_mem_nil] at he
  | cons p rest ih =>
    intro b d bud he
    obtain ⟨deadline, item⟩ := p
    by_cases hstop : (deadline || decide (b = 0)) = true
    · simp only [scanPage, if_pos hstop, List.not_mem_nil] at he
    · cases item with
      | undated =>
        simp only [scanPage, if_neg hstop, List.mem_cons] at he
        rcases he with h | he'
        · exact absurd h (by simp)
        · exact ih (b - 1) d bud he'
      | dated diff =>
        by_cases hd : diff > cfg.monthsBound
        · simp only [scanPage, if_neg hstop, if_pos hd, List.mem_cons] at he
          rcases he with h | he'
          · exact absurd h (by simp)
          · exact ih (b - 1) d bud he'
        · simp only [scanPage, if_neg hstop, if_neg hd, List.mem_cons] at he
          rcases he with h | he'
          · exact (Event.emit.inj h).2
          · exact ih cfg.tolerance d bud he'

theorem getNews_nonneg (cfg : CrawlConfig) (htol : 0 ≤ cfg.tolerance) :
    ∀ (pages : List Page) (b : Int), 0 ≤ b → ∀ e ∈ getNews cfg b pages, 0 ≤ e.budget := by
  intro pages
  induction pages with
  | nil =>
    intro b hb e he
    simp only [getNews, List.not_mem_nil] at he
  | cons p rest ih =>
    intro b hb e he
    by_cases hpos : b > 0
    · simp only [getNews, if_pos hpos] at he
      obtain ⟨hev, hfin⟩ := scanPage_nonneg cfg htol p.items b hb
      by_cases hret : (scanPage cfg b p.items).2.2 = true
      · rw [if_pos hret] at he
        exact hev e he
      · rw [if_neg hret] at he
        rcases List.mem_append.mp he with h1 | h2
        · exact hev e h1
        · rcases List.mem_cons.mp h2 with rfl | h3
          · simpa [Event.budget] using hfin
          · by_cases hadv : pageAdvances p.current p.total = true
            · rw [if_pos hadv] at h3
              rcases List.mem_cons.mp h3 with rfl | h4
              · simpa [Event.budget] using hfin
              · exact ih (scanPage cfg b p.items).2.1 hfin e h4
            · rw [if_neg hadv] at h3
              exact absurd h3 (List.not_mem_nil e)
    · simp only [getNews, if_neg hpos, List.not_mem_nil] at he

/-! ## Claims -/

/-- C1 counterexample: with `months = 0` the effective bound is `0`, so a
record whose month difference is 12 is rejected by the filter, and the
crawl loop discards it with a fault decrement instead of accepting it —
contradicting "accepts every record regardless of how old it is". -/
theorem c1_months_zero_counterexample :
    inWindow 0 12 = false ∧
    scanPage ⟨5, effectiveMonths 0⟩ 5 [(false, Item.dated 12)] =
      ([Event.fault 4], 4, false) := by
  exact ⟨rfl, rfl⟩

/-- C1 (amended): with `months = 0` the time-window filter accepts a dated
record iff its whole-month difference from now is ≤ 0 (the same window as
`months = 1`); records one or more whole months old are rejected. -/
theorem c1_months_zero_amended :
    ∀ diff : Int, inWindow 0 diff = true ↔ diff ≤ 0 := by
  intro diff
  simp [inWindow, effectiveMonths]

/-- C2: for a positive window `m`, a dated record is accepted by the
time-window filter iff `diff ≤ m - 1`; in particular `diff = m` is
rejected. -/
theorem c2_positive_window (m diff : Int) (hm : 0 < m) :
    (inWindow m diff = true ↔ diff ≤ m - 1) ∧ inWindow m m = false := by
  have hm0 : ¬ m = 0 := by omega
  constructor
  · simp [inWindow, effectiveMonths, hm0]
  · simp [inWindow, effectiveMonths, hm0]

/-- C2 witness at `m = 2`, `diff = 1`. -/
theorem c2_positive_window_witness :
    (inWindow 2 1 = true ↔ (1:Int) ≤ 2 - 1) ∧ inWindow 2 2 = false :=
  c2_positive_window 2 1 (by norm_num)

/-- C5 counterexample: `"$1111.1"` (four digits before the decimal, no
thousands separators) is matched by the first alternative
`\$(\d|[1-9]\d*)\.\d($|\D)` of the money pattern, so the matcher returns
true — not false as claimed. -/
theorem c5_money_counterexample : getMoney "$1111.1" "" = true := by
  rfl

/-- C5 (amended): the money matcher's verdicts on the spec's test strings;
all are as the claim states except `"$1111.1"`, which is true, because the
one-decimal-digit alternative accepts an ungrouped digit run of any
length (only the two-decimal-digit alternative requires comma-grouped
thousands). -/
theorem c5_money_matcher_amended :
    getMoney "$11.1 total" "" = true ∧
    getMoney "$111,111.11" "" = true ∧
    getMoney "spent 11 dollars" "" = true ∧
    getMoney "11 dollars worth" "" = true ∧
    getMoney "no amount here" "" = false ∧
    getMoney "$1111.1" "" = true := by
  exact ⟨rfl, rfl, rfl, rfl, rfl, rfl⟩

/-- C6 counterexample: in title extraction a permanent not-found failure
on the first attempt is retried — the second attempt's value is returned —
so not-found is not terminal for every field extraction. -/
theorem c6_notfound_retried_counterexample :
    getTitle FetchResult.notFound (FetchResult.found "recovered") = "recovered" ∧
    getTitle FetchResult.notFound (FetchResult.found "recovered") ≠ "" := by
  exact ⟨rfl, by decide⟩

/-- C6 (amended): only picture extraction treats not-found as terminal
(no retry); title, date and description extraction retry not-found and
stale alike, up to the 2-attempt ceiling, before degrading to `""`. -/
theorem c6_retry_policy_amended :
    (∀ o2, getPicture FetchResult.notFound o2 = "") ∧
    getPicture FetchResult.stale (FetchResult.found "pic") = "pic" ∧
    getPicture FetchResult.stale FetchResult.stale = "" ∧
    (∀ o2, getTitle FetchResult.notFound o2 = getTitle FetchResult.stale o2) ∧
    (∀ o1 o2, getDate o1 o2 = getTitle o1 o2 ∧ getDescription o1 o2 = getTitle o1 o2) ∧
    getTitle FetchResult.notFound FetchResult.notFound = "" := by
  refine ⟨?_, rfl, rfl, ?_, ?_, rfl⟩
  · intro o2
    cases o2 <;> rfl
  · intro o2
    cases o2 <;> rfl
  · intro o1 o2
    exact ⟨rfl, rfl⟩

/-- C7: `__get_news` compares the two halves of the `"current of total"`
indicator as strings. On `"2 of 10"` the lexical comparison yields
`false` (the crawl stops), although numerically `2 < 10` (the intended
decision is to advance); on single-digit totals such as `"2 of 3"` the
lexical and numeric decisions agree. -/
theorem c7_pagination_lexical_bug :
    paginationDecision "2 of 10" = some false ∧
    strToNat? "2" = some 2 ∧ strToNat? "10" = some 10 ∧ 2 < 10 ∧
    paginationDecision "2 of 3" = some true := by
  exact ⟨by decide, by decide, by decide, by norm_num, by decide⟩

/-- C9: with the empty categories string (the public default), the pending
set is the singleton `{""}` — not the empty set — so the negotiation loop
still runs, and a panel scan activates the first checkbox whose label
text lower-cases to `""`, emptying the pending set. -/
theorem c9_empty_categories :
    pendingCategories "" = [""] ∧
    filterLoopRuns (pendingCategories "") = true ∧
    (∀ labels : List String, "" ∈ labels →
      ∃ lab, scanLabels labels (pendingCategories "") = some (lab, []) ∧
        strLower lab = "") := by
  have hp : pendingCategories "" = [""] := rfl
  refine ⟨hp, rfl, ?_⟩
  intro labels
  induction labels with
  | nil =>
    intro hmem
    exact absurd hmem (List.not_mem_nil "")
  | cons l rest ih =>
    intro hmem
    by_cases hl : strLower l = ""
    · refine ⟨l, ?_, hl⟩
      rw [hp]
      simp [scanLabels, hl]
    · have hmem' : "" ∈ rest := by
        rcases List.mem_cons.mp hmem with heq | h
        · exact absurd (heq ▸ rfl : strLower l = "") hl
        · exact h
      obtain ⟨lab, h1, h2⟩ := ih hmem'
      refine ⟨lab, ?_, h2⟩
      rw [hp] at h1 ⊢
      simpa [scanLabels, hl] using h1

/-- C9 witness on a concrete panel with an empty-text label. -/
theorem c9_empty_categories_witness :
    pendingCategories "" = [""] ∧
    filterLoopRuns (pendingCategories "") = true ∧
    (∃ lab, scanLabels ["Politics", ""] (pendingCategories "") = some (lab, []) ∧
      strLower lab = "") :=
  ⟨c9_empty_categories.1, c9_empty_categories.2.1,
    c9_empty_categories.2.2 ["Politics", ""] (by simp)⟩

/-- C10: for a negative `months` the effective bound is `months - 1 ≤ -2`,
so every record with a non-negative month difference is rejected, and a
page scan over such records produces only fault decrements (no record is
ever accepted). -/
theorem c10_negative_months (months : Int) (hm : months < 0) :
    (∀ diff : Int, 0 ≤ diff → inWindow months diff = false) ∧
    (∀ (cfg : CrawlConfig) (b : Int) (items : List (Bool × Item)),
      cfg.monthsBound = effectiveMonths months →
      (∀ p ∈ items, ∀ d, p.2 = Item.dated d → 0 ≤ d) →
      ∀ e ∈ (scanPage cfg b items).1, ∃ b', e = Event.fault b') := by
  have hm0 : ¬ months = 0 := by omega
  constructor
  · intro diff hd
    simp [inWindow, effectiveMonths, hm0]
    omega
  · intro cfg b items hcfg
    induction items generalizing b with
    | nil =>
      intro _ e he
      simp only [scanPage, List.not_mem_nil] at he
    | cons p rest ih =>
      intro hitems e he
      obtain ⟨deadline, item⟩ := p
      have hrest : ∀ p ∈ rest, ∀ d, p.2 = Item.dated d → 0 ≤ d :=
        fun p hp => hitems p (List.mem_cons_of_mem _ hp)
      by_cases hstop : (deadline || decide (b = 0)) = true
      · simp only [scanPage, if_pos hstop, List.not_mem_nil] at he
      · cases item with
        | undated =>
          simp only [scanPage, if_neg hstop, List.mem_cons] at he
          rcases he with rfl | he'
          · exact ⟨b - 1, rfl⟩
          · exact ih (b - 1) hrest e he'
        | dated diff =>
          have hdiff : 0 ≤ diff :=
            hitems (deadline, Item.dated diff) (List.mem_cons_self _ _) diff rfl
          have hgt : diff > cfg.monthsBound := by
            rw [hcfg]
            simp only [effectiveMonths, if_neg hm0]
            omega
          simp only [scanPage, if_neg hstop, if_pos hgt, List.mem_cons] at he
          rcases he with rfl | he'
          · exact ⟨b - 1, rfl⟩
          · exact ih (b - 1) hrest e he'

/-- C3: starting from a non-negative budget (the source starts from
`FAULTS_TOLERANCE = 5`) the `remaining_faults` counter is non-negative at
every event of any crawl execution, and during a page scan an event that
leaves the budget at exactly 0 is the last event of that scan — the next
node check returns without processing any further node of the page. -/
theorem c3_fault_budget_invariant (cfg : CrawlConfig) (b : Int)
    (pages : List Page) (items : List (Bool × Item))
    (hb : 0 ≤ b) (htol : 0 ≤ cfg.tolerance) :
    (∀ e ∈ getNews cfg b pages, 0 ≤ e.budget) ∧
    (∀ l₁ e l₂, (scanPage cfg b items).1 = l₁ ++ e :: l₂ →
      e.budget = 0 → l₂ = []) := by
  exact ⟨getNews_nonneg cfg htol pages b hb,
    fun l₁ e l₂ h hbe => scanPage_zero_last cfg items b l₁ e l₂ h hbe⟩

/-- C3 witness on a concrete configuration and page. -/
theorem c3_fault_budget_invariant_witness :
    (∀ e ∈ getNews ⟨5, 0⟩ 5 [⟨[(false, Item.undated)], "1", "1"⟩], 0 ≤ e.budget) ∧
    (∀ l₁ e l₂, (scanPage ⟨5, 0⟩ 5 [(false, Item.dated 1)]).1 = l₁ ++ e :: l₂ →
      e.budget = 0 → l₂ = []) :=
  c3_fault_budget_invariant ⟨5, 0⟩ 5 [⟨[(false, Item.undated)], "1", "1"⟩]
    [(false, Item.dated 1)] (by norm_num) (by norm_num)

/-- C4: every emitted (accepted) record resets `remaining_faults` to the
configured ceiling: any `emit` event in any crawl trace carries budget
`cfg.tolerance`, however many faults preceded it. -/
theorem c4_accept_resets_budget (cfg : CrawlConfig) (b : Int) (pages : List Page)
    (d bud : Int) (hmem : Event.emit d bud ∈ getNews cfg b pages) :
    bud = cfg.tolerance := by
  induction pages generalizing b with
  | nil =>
    simp only [getNews, List.not_mem_nil] at hmem
  | cons p rest ih =>
    by_cases hpos : b > 0
    · simp only [getNews, if_pos hpos] at hmem
      by_cases hret : (scanPage cfg b p.items).2.2 = true
      · rw [if_pos hret] at hmem
        exact scanPage_emit_budget cfg p.items b d bud hmem
      · rw [if_neg hret] at hmem
        rcases List.mem_append.mp hmem with h1 | h2
        · exact scanPage_emit_budget cfg p.items b d bud h1
        · rcases List.mem_cons.mp h2 with heq | h3
          · exact absurd heq (by simp)
          · by_cases hadv : pageAdvances p.current p.total = true
            · rw [if_pos hadv] at h3
              rcases List.mem_cons.mp h3 with heq | h4
              · exact absurd heq (by simp)
              · exact ih _ h4
            · rw [if_neg hadv] at h3
              exact absurd h3 (List.not_mem_nil _)
    · simp only [getNews, if_neg hpos, List.not_mem_nil] at hmem

/-- C4 witness: an accepted record after two faults carries the ceiling. -/
theorem c4_accept_resets_budget_witness :
    (5 : Int) = (⟨5, 0⟩ : CrawlConfig).tolerance :=
  c4_accept_resets_budget ⟨5, 0⟩ 5
    [⟨[(false, Item.undated), (false, Item.undated), (false, Item.dated 0)], "1", "1"⟩]
    0 5 (by decide)

/-- C8 counterexample: when the budget reaches exactly 0 at the last node
of a page, the loop still reads the page counter and clicks the next-page
control with the budget already exhausted — further Renderer/DOM activity
after exhaustion, contradicting the claim. -/
theorem c8_activity_after_exhaustion_counterexample :
    getNews ⟨5, 0⟩ 5
      [⟨[(false, Item.undated), (false, Item.undated), (false, Item.undated),
         (false, Item.undated), (false, Item.undated)], "1", "2"⟩,
       ⟨[], "2", "2"⟩] =
      [Event.fault 4, Event.fault 3, Event.fault 2, Event.fault 1, Event.fault 0,
       Event.readCounter 0, Event.clickNext 0] := by
  decide

/-- C8 (amended): once any event leaves the budget at 0, the crawl
performs at most one further counter read and at most one further
next-page click — exactly the pagination tail of the page on whose last
node the budget died — and then stops; a budget that hits 0 before a node
check ends the trace immediately. -/
theorem c8_stop_after_exhaustion (cfg : CrawlConfig) :
    ∀ (pages : List Page) (b : Int) (l₁ : List Event) (e : Event) (l₂ : List Event),
      getNews cfg b pages = l₁ ++ e :: l₂ → e.budget = 0 →
      l₂ = [] ∨ l₂ = [Event.readCounter 0] ∨
      l₂ = [Event.readCounter 0, Event.clickNext 0] ∨ l₂ = [Event.clickNext 0] := by
  intro pages
  induction pages with
  | nil =>
    intro b l₁ e l₂ h _
    simp only [getNews] at h
    exact absurd h (List.append_ne_nil_of_right_ne_nil l₁ (List.cons_ne_nil e l₂)).symm
  | cons p rest ih =>
    intro b l₁ e l₂ h hbe
    by_cases hpos : b > 0
    · simp only [getNews, if_pos hpos] at h
      by_cases hret : (scanPage cfg b p.items).2.2 = true
      · rw [if_pos hret] at h
        exact Or.inl (scanPage_zero_last cfg p.items b l₁ e l₂ h hbe)
      · rw [if_neg hret] at h
        by_cases hadv : pageAdvances p.current p.total = true
        · rw [if_pos hadv] at h
          rcases List.append_eq_append_iff.mp h with ⟨as, _, ha2⟩ | ⟨cs, hc1, hc2⟩
          · cases as with
            | nil =>
              simp only [List.nil_append, List.cons.injEq] at ha2
              obtain ⟨rfl, rfl⟩ := ha2
              have hz : (scanPage cfg b p.items).2.1 = 0 := hbe
              rw [hz, getNews_zero]
              exact Or.inr (Or.inr (Or.inr rfl))
            | cons x as2 =>
              simp only [List.cons_append, List.cons.injEq] at ha2
              obtain ⟨rfl, ha3⟩ := ha2
              cases as2 with
              | nil =>
                simp only [List.nil_append, List.cons.injEq] at ha3
                obtain ⟨rfl, rfl⟩ := ha3
                have hz : (scanPage cfg b p.items).2.1 = 0 := hbe
                rw [hz, getNews_zero]
                exact Or.inl rfl
              | cons y as3 =>
                simp only [List.cons_append, List.cons.injEq] at ha3
                obtain ⟨rfl, ha4⟩ := ha3
                exact ih (scanPage cfg b p.items).2.1 as3 e l₂ ha4 hbe
          · cases cs with
            | nil =>
              simp only [List.nil_append, List.cons.injEq] at hc2
              obtain ⟨rfl, rfl⟩ := hc2
              have hz : (scanPage cfg b p.items).2.1 = 0 := hbe
              rw [hz, getNews_zero]
              exact Or.inr (Or.inr (Or.inr rfl))
            | cons x cs2 =>
              simp only [List.cons_append, List.cons.injEq] at hc2
              obtain ⟨rfl, hc3⟩ := hc2
              have hcnil : cs2 = [] :=
                scanPage_zero_last cfg p.items b l₁ e cs2 hc1 hbe
              subst hcnil
              have hfin : (scanPage cfg b p.items).2.1 = e.budget :=
                scanPage_final_budget cfg p.items b l₁ e hc1
              rw [hbe] at hfin
              rw [List.nil_append] at hc3
              rw [hfin, getNews_zero] at hc3
              exact Or.inr (Or.inr (Or.inl hc3))
        · rw [if_neg hadv] at h
          rcases List.append_eq_append_iff.mp h with ⟨as, _, ha2⟩ | ⟨cs, hc1, hc2⟩
          · cases as with
            | nil =>
              simp only [List.nil_append, List.cons.injEq] at ha2
              obtain ⟨rfl, rfl⟩ := ha2
              exact Or.inl rfl
            | cons x as2 =>
              simp only [List.cons_append, List.cons.injEq] at ha2
              obtain ⟨rfl, ha3⟩ := ha2
              exact absurd ha3.symm
                (List.append_ne_nil_of_right_ne_nil as2 (List.cons_ne_nil e l₂))
          · cases cs with
            | nil =>
              simp only [List.nil_append, List.cons.injEq] at hc2
              obtain ⟨rfl, rfl⟩ := hc2
              exact Or.inl rfl
            | cons x cs2 =>
              simp only [List.cons_append, List.cons.injEq] at hc2
              obtain ⟨rfl, hc3⟩ := hc2
              have hcnil : cs2 = [] :=
                scanPage_zero_last cfg p.items b l₁ e cs2 hc1 hbe
              subst hcnil
              have hfin : (scanPage cfg b p.items).2.1 = e.budget :=
                scanPage_final_budget cfg p.items b l₁ e hc1
              rw [hbe] at hfin
              rw [List.nil_append] at hc3
              rw [hfin] at hc3
              exact Or.inr (Or.inl hc3)
    · simp only [getNews, if_neg hpos] at h
      exact absurd h (List.append_ne_nil_of_right_ne_nil l₁ (List.cons_ne_nil e l₂)).symm

/-- C8 (amended) witness on the counterexample trace. -/
theorem c8_stop_after_exhaustion_witness :
    ([Event.readCounter 0, Event.clickNext 0] : List Event) = [] ∨
    ([Event.readCounter 0, Event.clickNext 0] : List Event) = [Event.readCounter 0] ∨
    ([Event.readCounter 0, Event.clickNext 0] : List Event) =
      [Event.readCounter 0, Event.clickNext 0] ∨
    ([Event.readCounter 0, Event.clickNext 0] : List Event) = [Event.clickNext 0] :=
  c8_stop_after_exhaustion ⟨5, 0⟩
    [⟨[(false, Item.undated), (false, Item.undated), (false, Item.undated),
       (false, Item.undated), (false, Item.undated)], "1", "2"⟩,
     ⟨[], "2", "2"⟩] 5
    [Event.fault 4, Event.fault 3, Event.fault 2, Event.fault 1] (Event.fault 0)
    [Event.readCounter 0, Event.clickNext 0] (by decide) rfl

/-- C10 witness at `months = -1` on a concrete dated record. -/
theorem c10_negative_months_witness :
    inWindow (-1) 0 = false ∧
    (∀ e ∈ (scanPage ⟨5, effectiveMonths (-1)⟩ 5 [(false, Item.dated 3)]).1,
      ∃ b', e = Event.fault b') := by
  have h := c10_negative_months (-1) (by norm_num)
  refine ⟨h.1 0 le_rfl, h.2 ⟨5, effectiveMonths (-1)⟩ 5 [(false, Item.dated 3)] rfl ?_⟩
  intro p hp d hd
  simp only [List.mem_singleton] at hp
  subst hp
  simp only at hd
  have := Item.dated.inj hd
  omega

end FreshNews
